import Mathlib

/-!
# Verification of the ISUS ETF NAV estimation scripts

Shallow embedding of `calculate_isus_nav_online_fallback.py` and
`calculate_isus_nav_xls.py`.

Numbers are modelled as rationals `ℚ`: the scripts use machine floats, but
every claim under verification is about control flow or exact arithmetic
identities, for which `ℚ` is the faithful idealisation. Pandas cells are
modelled by `Cell` (string, numeric or null/NaN); fallible operations
return `Option`.
-/

/-- A pandas cell after CSV/Excel parsing: a string, a number, or null (NaN). -/
inductive Cell where
  | str (s : String)
  | num (q : ℚ)
  | null
deriving DecidableEq

/-- Numeric value of a decimal digit character (`'0'` has code 48). -/
def digitVal (c : Char) : ℕ := c.toNat - 48

/-- Character for a decimal digit `d < 10`. -/
def digitChar (d : ℕ) : Char := Char.ofNat (48 + d)

/-- Parse a (possibly empty) list of characters as an unsigned integer;
`none` if any character is not a decimal digit. -/
def parseNatDigits (cs : List Char) : Option ℕ :=
  if cs.all Char.isDigit then some (cs.foldl (fun a c => a * 10 + digitVal c) 0) else none

/-- Split a character list at the first `'.'`: returns the part before it and,
if a dot occurs, the part after it. -/
def breakDot : List Char → List Char × Option (List Char)
  | [] => ([], none)
  | c :: rest =>
    if c = '.' then ([], some rest)
    else (c :: (breakDot rest).1, (breakDot rest).2)

/-- Parse an unsigned decimal literal (`"123"`, `"123.45"`, `".5"`, `"5."`);
`none` on anything else. Models the core of `pd.to_numeric` on a
comma-stripped string (exponent forms and whitespace are not modelled:
the holdings feed only ever carries plain decimal literals). -/
def parseUnsignedChars (cs : List Char) : Option ℚ :=
  match (breakDot cs).2 with
  | none =>
    if (breakDot cs).1 = [] then none
    else
      match parseNatDigits (breakDot cs).1 with
      | some n => some ((n : ℚ))
      | none => none
  | some frac =>
    if (breakDot cs).1 = [] ∧ frac = [] then none
    else
      match parseNatDigits (breakDot cs).1, parseNatDigits frac with
      | some n, some f => some ((n : ℚ) + (f : ℚ) / (10 : ℚ) ^ frac.length)
      | _, _ => none

/-- Parse a signed decimal literal. Models `pd.to_numeric(·, errors="coerce")`
on one cell: on failure it returns `none` (the NaN marker) and never raises. -/
def toNumericChars (cs : List Char) : Option ℚ :=
  match cs with
  | [] => none
  | c :: rest =>
    if c = '-' then
      match parseUnsignedChars rest with
      | some p => some (-p)
      | none => none
    else if c = '+' then parseUnsignedChars rest
    else parseUnsignedChars (c :: rest)

/-- The Numeric Normalizer applied to one textual cell, embedding the
`cols_to_clean` loop body (`calculate_isus_nav_online_fallback.py` lines
153-159, identically `calculate_isus_nav_xls.py` lines 117-123):
strip all `','`; if the column name contains `'%'`, strip all `'%'`;
then coerce to a number with null on failure. -/
def cleanCell (isPercentCol : Bool) (s : String) : Option ℚ :=
  toNumericChars
    (if isPercentCol then (s.data.filter (fun c => c ≠ ',')).filter (fun c => c ≠ '%')
     else s.data.filter (fun c => c ≠ ','))

/-- The Numeric Normalizer on an arbitrary cell (`astype(str)` then clean):
a numeric cell's string form round-trips through `to_numeric`, and a null
cell renders as `"nan"` which coerces back to NaN. -/
def cellToNumeric (isPercentCol : Bool) : Cell → Option ℚ
  | Cell.str s => cleanCell isPercentCol s
  | Cell.num q => some q
  | Cell.null => none

/-- Big-endian decimal digits of `n`, structurally recursive on a fuel
argument so that it reduces in the kernel; empty for `n = 0`. -/
def natDigitsAux : ℕ → ℕ → List Char
  | 0, _ => []
  | fuel + 1, n => if n = 0 then [] else natDigitsAux fuel (n / 10) ++ [digitChar (n % 10)]

/-- Decimal rendering of a natural number. -/
def renderNatChars (n : ℕ) : List Char := if n = 0 then ['0'] else natDigitsAux n n

/-- Exactly `k` big-endian decimal digits of `n % 10 ^ k`, zero-padded. -/
def padDigits : ℕ → ℕ → List Char
  | 0, _ => []
  | k + 1, n => padDigits k (n / 10) ++ [digitChar (n % 10)]

/-- Decimal string form of a rational whose denominator divides a power of
ten, written with `q.den` fractional digits (models the textual form a
numeric cell takes when fed back through the normalizer). -/
def renderDec (q : ℚ) : String :=
  String.mk
    ((if q.num < 0 then ['-'] else []) ++
      renderNatChars (q.num.natAbs * 10 ^ q.den / q.den / 10 ^ q.den) ++
      '.' :: padDigits q.den (q.num.natAbs * 10 ^ q.den / q.den % 10 ^ q.den))

/-- A raw holdings row as parsed from CSV/Excel, restricted to the columns
the scripts read (`Ticker`, `Shares`, `Market Currency`, `Asset Class`,
`Market Value`). -/
structure RawRow where
  ticker : Cell
  shares : Cell
  marketCurrency : Cell
  assetClass : Cell
  marketValue : Cell
deriving DecidableEq

/-- A holdings row after the cleaning step: `Shares` and `Market Value` have
been coerced to numeric-or-null, the other columns are untouched (they are
not in `cols_to_clean`). -/
structure CleanRow where
  ticker : Cell
  shares : Option ℚ
  marketCurrency : Cell
  assetClass : Cell
  marketValue : Option ℚ
deriving DecidableEq

/-- Column-wise cleaning of one row: run the Numeric Normalizer over the
numeric-bearing columns (`Market Value`, `Shares`; neither contains `'%'`
in its name). -/
def cleanRow (r : RawRow) : CleanRow :=
  { ticker := r.ticker
    shares := cellToNumeric false r.shares
    marketCurrency := r.marketCurrency
    assetClass := r.assetClass
    marketValue := cellToNumeric false r.marketValue }

/-- Row-retention test of
`dropna(subset=["Ticker", "Shares", "Market Currency", "Asset Class"])`:
keep a row only if all four fields are non-null. -/
def keepRow (r : CleanRow) : Bool :=
  r.ticker ≠ Cell.null && r.shares.isSome &&
    r.marketCurrency ≠ Cell.null && r.assetClass ≠ Cell.null

/-- The cleaning block of `calculate_isus_nav_online_fallback.py`
(lines 153-163): normalize the numeric columns, then drop rows with a null
`Ticker`, `Shares`, `Market Currency` or `Asset Class` (the second
`to_numeric`/`dropna` pass over `Shares` on lines 162-163 is a no-op on the
already-numeric column). -/
def cleanTableOnline (rows : List RawRow) : List CleanRow :=
  (rows.map cleanRow).filter keepRow

/-- The cleaning block of `calculate_isus_nav_xls.py` (lines 117-127),
textually identical to the one in the online-fallback script. -/
def cleanTableXls (rows : List RawRow) : List CleanRow :=
  (rows.map cleanRow).filter keepRow

/-- Sort key for top-10 selection: the pre-repricing `Market Value` column
(only applied to rows already filtered to have a present value). -/
def mvKey (r : CleanRow) : ℚ := r.marketValue.getD 0

/-- Insert a row into a list sorted descending by `mvKey`, after any
existing row of greater or equal key (stable, matching `nlargest`'s
`keep="first"` tie behaviour). -/
def insertMvDesc (r : CleanRow) : List CleanRow → List CleanRow
  | [] => [r]
  | x :: xs => if mvKey x < mvKey r then r :: x :: xs else x :: insertMvDesc r xs

/-- Stable descending sort by `mvKey` (insertion sort; rows earlier in the
table stay ahead of later rows with the same market value). -/
def sortMvDesc (rows : List CleanRow) : List CleanRow :=
  rows.foldl (fun acc r => insertMvDesc r acc) []

/-- The rows `nlargest(10, "Market Value")` selects from the `Equity`
restriction: non-null market value, sorted descending, first ten
(`nlargest` ignores NaN keys, so rows with a null market value never
appear; if no equity row has a value the result is empty, matching the
script's explicit guard). -/
def top10Rows (rows : List CleanRow) : List CleanRow :=
  (sortMvDesc (rows.filter
    (fun r => r.assetClass = Cell.str "Equity" && r.marketValue.isSome))).take 10

/-- `top_10_equities` (`calculate_isus_nav_online_fallback.py` lines
174-187, `calculate_isus_nav_xls.py` lines 138-151): tickers of the up to
ten largest equity rows by the pre-repricing `Market Value` column. -/
def top_10_equities (rows : List CleanRow) : List Cell :=
  (top10Rows rows).map (fun r => r.ticker)

/-- External market-data environment of one run: the price fields the
script reads from `yfinance`, whether a given ticker lookup raises, and
the FX rates fetched once per run (`None` when unavailable). -/
structure PriceEnv where
  currentPrice : String → Option ℚ
  regularMarketPrice : String → Option ℚ
  lastClose : String → Option ℚ
  raises : String → Bool
  eurUsd : Option ℚ
  gbpUsd : Option ℚ

/-- Python's `a or b` on optional numbers: falsy (`None` or `0.0`) falls
through to the second operand. -/
def pyOr (a b : Option ℚ) : Option ℚ :=
  if a = none ∨ a = some 0 then b else a

/-- Price resolution for one equity ticker:
`info.get("currentPrice") or info.get("regularMarketPrice")`, falling back
to the most recent daily close when the result is `None`. -/
def lookupPrice (env : PriceEnv) (t : String) : Option ℚ :=
  match pyOr (env.currentPrice t) (env.regularMarketPrice t) with
  | some v => some v
  | none => env.lastClose t

/-- Python `str(cell)`, used when recording a ticker in `missing_prices`
and in the `f"{currency} Cash"` tag. -/
def cellStr : Cell → String
  | Cell.str s => s
  | Cell.num q => renderDec q
  | Cell.null => "nan"

/-- The ticker-validity test of the equity branch
(`not isinstance(ticker, str) or len(ticker) > 10 or " " in ticker`):
non-string tickers, tickers longer than ten characters, and tickers
containing a space are skipped before any price lookup. -/
def invalidTicker : Cell → Bool
  | Cell.str s => decide (10 < s.data.length) || s.data.contains ' '
  | _ => true

/-- Effect of one iteration of the valuation loop
(`calculate_isus_nav_online_fallback.py` lines 230-303,
`calculate_isus_nav_xls.py` lines 194-267) on the accumulators: the amount
added to `total_portfolio_value_usd` and the entries appended to
`missing_prices`, branch for branch as in the source. -/
def rowDelta (env : PriceEnv) (r : CleanRow) : ℚ × List String :=
  if r.shares = none ∨ r.ticker = Cell.str "N/A" ∨
      r.marketCurrency = Cell.str "N/A" ∨ r.assetClass = Cell.str "N/A" then
    (0, [])
  else if r.assetClass = Cell.str "Equity" then
    if invalidTicker r.ticker then (0, [])
    else if env.raises (cellStr r.ticker) then (0, [cellStr r.ticker])
    else
      match lookupPrice env (cellStr r.ticker) with
      | some p => (r.shares.getD 0 * p, [])
      | none => (0, [cellStr r.ticker])
  else if r.assetClass = Cell.str "Cash" then
    match r.marketValue with
    | none => (0, [])
    | some amt =>
      if r.marketCurrency = Cell.str "USD" then (amt, [])
      else if r.marketCurrency = Cell.str "EUR" then
        match env.eurUsd with
        | some fx => (amt * fx, [])
        | none => (0, ["EUR Cash"])
      else if r.marketCurrency = Cell.str "GBP" then
        match env.gbpUsd with
        | some fx => (amt * fx, [])
        | none => (0, ["GBP Cash"])
      else (0, [cellStr r.marketCurrency ++ " Cash"])
  else (0, [])

/-- The valuation accumulator: `total_portfolio_value_usd` and
`missing_prices`. -/
structure ValState where
  total : ℚ
  missing : List String
deriving DecidableEq

/-- Accumulator state before the loop: total `0.0`, no missing
valuations. -/
def initialValState : ValState := ⟨0, []⟩

/-- One iteration of the valuation loop applied to the accumulator. -/
def valueRow (env : PriceEnv) (st : ValState) (r : CleanRow) : ValState :=
  ⟨st.total + (rowDelta env r).1, st.missing ++ (rowDelta env r).2⟩

/-- The whole valuation loop over a cleaned holdings table. -/
def valuate (env : PriceEnv) (rows : List CleanRow) : ValState :=
  rows.foldl (valueRow env) initialValState

/-- Contribution of a single row to `total_portfolio_value_usd`. -/
def rowContribution (env : PriceEnv) (r : CleanRow) : ℚ :=
  (rowDelta env r).1

/-- The Valuation Engine's two outputs as produced by one run: the
accumulator after the loop, and the top-10 ticker list computed from the
pre-repricing snapshot before the loop starts. -/
def valuationResult (env : PriceEnv) (rows : List CleanRow) :
    ValState × List Cell :=
  (valuate env rows, top_10_equities rows)


/-- Round to the nearest integer, ties to even — the rounding Python's
fixed-point formatting applies. -/
def roundHalfEven (q : ℚ) : ℤ :=
  if q - ⌊q⌋ < 1 / 2 then ⌊q⌋
  else if 1 / 2 < q - ⌊q⌋ then ⌊q⌋ + 1
  else if 2 ∣ ⌊q⌋ then ⌊q⌋ else ⌊q⌋ + 1

/-- Python `f"{x:.4f}"`: the value rounded to four decimal places, printed
with exactly four fractional digits. -/
def formatFixed4 (q : ℚ) : String :=
  String.mk
    ((if roundHalfEven (q * 10000) < 0 then ['-'] else []) ++
      renderNatChars ((roundHalfEven (q * 10000)).natAbs / 10000) ++
      '.' :: padDigits 4 ((roundHalfEven (q * 10000)).natAbs % 10000))

/-- The NAV aggregation block computing `final_result_status`
(`calculate_isus_nav_online_fallback.py` lines 312-327, identically
`calculate_isus_nav_xls.py` lines 276-290): start from the `"ERROR"`
sentinel; with a valid positive shares-outstanding figure compute
`total / shares`, but publish the 4-decimal string only when
`missing_prices` is empty. -/
def final_result_status (sharesOutstanding : Option ℚ) (total : ℚ)
    (missing : List String) : String :=
  match sharesOutstanding with
  | none => "ERROR"
  | some s =>
    if s ≤ 0 then "ERROR"
    else if missing = [] then formatFixed4 (total / s) else "ERROR"

/-- External world of one run of the online-fallback script: outcomes of
the shares-outstanding scrape (`none` = page fetch failed with a request
error; `some none` = page fetched but the value could not be located or
parsed), of the holdings-CSV fetch (`none` = request or processing error;
`some lines` = the decoded content split into lines), the CSV parser, the
local fallback file (`none` = absent; `some none` = present but
unreadable; `some (some rows)` = read), whether the pandas cleaning block
raises, and the market-data environment. -/
structure OnlineEnv where
  pageFetch : Option (Option ℚ)
  csvFetch : Option (List String)
  parseCsv : List String → Option (List RawRow)
  localFile : Option (Option (List RawRow))
  cleanRaises : Bool
  prices : PriceEnv

/-- The URL branch of the holdings resolver
(`calculate_isus_nav_online_fallback.py` lines 95-120): on a successful
fetch, require more than two lines, drop the two metadata lines and parse
the remainder; any failure yields `none` (fall back to the local file). -/
def urlHoldings (e : OnlineEnv) : Option (List RawRow) :=
  match e.csvFetch with
  | none => none
  | some lines => if 2 < lines.length then e.parseCsv (lines.drop 2) else none

/-- The holdings resolver of the online-fallback script (lines 91-139):
first the URL source, then the local fallback file, together with the
`source_used` provenance tag; `none` means both sources failed (a fatal
run). -/
def resolveHoldings (e : OnlineEnv) : Option (List RawRow × String) :=
  match urlHoldings e with
  | some rows => some (rows, "URL")
  | none =>
    match e.localFile with
    | some (some rows) => some (rows, "Local File")
    | _ => none

/-- Observable outcome of one run: final contents of `nav_result.txt` and
`source_used.txt` (`none` = never written during the run) and the process
exit code. -/
structure RunResult where
  resultFile : Option String
  sourceFile : Option String
  exitCode : ℕ
deriving DecidableEq

/-- End-to-end model of `calculate_isus_nav_online_fallback.py`: scrape
shares outstanding (both failure modes are fatal: write `"ERROR"`, exit
1); resolve holdings with URL→local-file fallback (total failure writes
`source_used.txt = "Error"` and the `"ERROR"` sentinel, exit 1); record
the provenance tag; clean (a pandas error here is fatal after the tag is
written); value every row; aggregate; write the outcome and exit 1 exactly
when it is the `"ERROR"` sentinel. Status-file writes are modelled as
always succeeding (the script downgrades an `IOError` there to a console
warning; the status sink is an external collaborator). -/
def runOnline (e : OnlineEnv) : RunResult :=
  match e.pageFetch with
  | none => ⟨some "ERROR", none, 1⟩
  | some none => ⟨some "ERROR", none, 1⟩
  | some (some so) =>
    match resolveHoldings e with
    | none => ⟨some "ERROR", some "Error", 1⟩
    | some (rows, src) =>
      if e.cleanRaises then ⟨some "ERROR", some src, 1⟩
      else
        ⟨some (final_result_status (some so)
            (valuate e.prices (cleanTableOnline rows)).total
            (valuate e.prices (cleanTableOnline rows)).missing),
          some src,
          if final_result_status (some so)
              (valuate e.prices (cleanTableOnline rows)).total
              (valuate e.prices (cleanTableOnline rows)).missing = "ERROR"
            then 1 else 0⟩

theorem digitVal_digitChar {d : ℕ} (hd : d < 10) : digitVal (digitChar d) = d := by
  interval_cases d <;> rfl

theorem isDigit_digitChar {d : ℕ} (hd : d < 10) : (digitChar d).isDigit = true := by
  interval_cases d <;> rfl

theorem natDigitsAux_digits :
    ∀ fuel n : ℕ, ∀ c ∈ natDigitsAux fuel n, c.isDigit = true := by
  intro fuel
  induction fuel with
  | zero => intro n c hc; simp [natDigitsAux] at hc
  | succ fuel ih =>
    intro n c hc
    by_cases hn : n = 0
    · simp [natDigitsAux, hn] at hc
    · rw [natDigitsAux, if_neg hn] at hc
      rcases List.mem_append.mp hc with h | h
      · exact ih _ _ h
      · rw [List.mem_singleton.mp h]
        exact isDigit_digitChar (Nat.mod_lt _ (by norm_num))

theorem natDigitsAux_foldl :
    ∀ fuel n a : ℕ, n ≤ fuel →
      (natDigitsAux fuel n).foldl (fun a c => a * 10 + digitVal c) a
        = a * 10 ^ (natDigitsAux fuel n).length + n := by
  intro fuel
  induction fuel with
  | zero =>
    intro n a h
    interval_cases n
    simp [natDigitsAux]
  | succ fuel ih =>
    intro n a h
    by_cases hn : n = 0
    · simp [natDigitsAux, hn]
    · have hdiv : n / 10 ≤ fuel := by
        have := Nat.div_lt_self (Nat.pos_of_ne_zero hn) (by norm_num : 1 < 10)
        omega
      rw [natDigitsAux, if_neg hn, List.foldl_append, ih _ _ hdiv]
      have hmod : n % 10 < 10 := Nat.mod_lt _ (by norm_num)
      have hdm : n / 10 * 10 + n % 10 = n := by omega
      simp only [List.foldl_cons, List.foldl_nil, List.length_append,
        List.length_singleton, digitVal_digitChar hmod]
      calc (a * 10 ^ (natDigitsAux fuel (n / 10)).length + n / 10) * 10 + n % 10
          = a * (10 ^ (natDigitsAux fuel (n / 10)).length * 10)
              + (n / 10 * 10 + n % 10) := by ring
        _ = a * 10 ^ ((natDigitsAux fuel (n / 10)).length + 1) + n := by
            rw [hdm, pow_succ]

theorem renderNatChars_ne_nil (n : ℕ) : renderNatChars n ≠ [] := by
  unfold renderNatChars
  by_cases hn : n = 0
  · simp [hn]
  · rw [if_neg hn]
    cases n with
    | zero => exact absurd rfl hn
    | succ m =>
      rw [natDigitsAux, if_neg hn]
      simp

theorem renderNatChars_digits (n : ℕ) : ∀ c ∈ renderNatChars n, c.isDigit = true := by
  intro c hc
  unfold renderNatChars at hc
  by_cases hn : n = 0
  · rw [if_pos hn] at hc
    rw [List.mem_singleton.mp hc]
    rfl
  · rw [if_neg hn] at hc
    exact natDigitsAux_digits n n c hc

theorem parse_renderNatChars (n : ℕ) : parseNatDigits (renderNatChars n) = some n := by
  unfold parseNatDigits
  rw [if_pos (List.all_eq_true.mpr (fun c hc => renderNatChars_digits n c hc))]
  unfold renderNatChars
  by_cases hn : n = 0
  · simp [hn, digitVal, digitChar]
  · rw [if_neg hn, natDigitsAux_foldl n n 0 le_rfl]
    simp

theorem padDigits_length : ∀ k n : ℕ, (padDigits k n).length = k := by
  intro k
  induction k with
  | zero => intro n; rfl
  | succ k ih => intro n; rw [padDigits]; simp [ih]

theorem padDigits_digits : ∀ k n : ℕ, ∀ c ∈ padDigits k n, c.isDigit = true := by
  intro k
  induction k with
  | zero => intro n c hc; simp [padDigits] at hc
  | succ k ih =>
    intro n c hc
    rw [padDigits] at hc
    rcases List.mem_append.mp hc with h | h
    · exact ih _ _ h
    · rw [List.mem_singleton.mp h]
      exact isDigit_digitChar (Nat.mod_lt _ (by norm_num))

theorem padDigits_foldl :
    ∀ k n a : ℕ, (padDigits k n).foldl (fun a c => a * 10 + digitVal c) a
      = a * 10 ^ k + n % 10 ^ k := by
  intro k
  induction k with
  | zero => intro n a; simp [padDigits, Nat.mod_one]
  | succ k ih =>
    intro n a
    rw [padDigits, List.foldl_append, ih]
    have hmod : n % 10 < 10 := Nat.mod_lt _ (by norm_num)
    have h1 : n % (10 * 10 ^ k) / 10 = n / 10 % 10 ^ k := Nat.mod_mul_right_div_self n 10 (10 ^ k)
    have h2 : n % (10 * 10 ^ k) % 10 = n % 10 := Nat.mod_mod_of_dvd n ⟨10 ^ k, rfl⟩
    have hkey : n / 10 % 10 ^ k * 10 + n % 10 = n % 10 ^ (k + 1) := by
      have hps : (10 : ℕ) ^ (k + 1) = 10 * 10 ^ k := by ring
      rw [hps, ← h1, ← h2]
      omega
    simp only [List.foldl_cons, List.foldl_nil, digitVal_digitChar hmod]
    calc (a * 10 ^ k + n / 10 % 10 ^ k) * 10 + n % 10
        = a * (10 ^ k * 10) + (n / 10 % 10 ^ k * 10 + n % 10) := by ring
      _ = a * 10 ^ (k + 1) + n % 10 ^ (k + 1) := by rw [hkey, pow_succ]

theorem parse_padDigits (k n : ℕ) : parseNatDigits (padDigits k n) = some (n % 10 ^ k) := by
  unfold parseNatDigits
  rw [if_pos (List.all_eq_true.mpr (fun c hc => padDigits_digits k n c hc)), padDigits_foldl]
  simp

theorem breakDot_no_dot : ∀ l : List Char, '.' ∉ l → breakDot l = (l, none) := by
  intro l
  induction l with
  | nil => intro _; rfl
  | cons c rest ih =>
    intro h
    have hc : c ≠ '.' := fun hc => h (hc ▸ List.mem_cons_self c rest)
    have hrest : '.' ∉ rest := fun hr => h (List.mem_cons_of_mem c hr)
    rw [breakDot, if_neg hc, ih hrest]

theorem breakDot_split :
    ∀ I F : List Char, '.' ∉ I → breakDot (I ++ '.' :: F) = (I, some F) := by
  intro I
  induction I with
  | nil => intro F _; simp [breakDot]
  | cons c rest ih =>
    intro F h
    have hc : c ≠ '.' := fun hc => h (hc ▸ List.mem_cons_self c rest)
    have hrest : '.' ∉ rest := fun hr => h (List.mem_cons_of_mem c hr)
    rw [List.cons_append, breakDot, if_neg hc, ih F hrest]

theorem dvd_ten_pow_self : ∀ d k : ℕ, d ∣ 10 ^ k → d ∣ 10 ^ d := by
  intro d
  induction d using Nat.strong_induction_on with
  | _ d ih =>
    intro k hdk
    rcases Nat.eq_zero_or_pos d with rfl | hd0
    · exact absurd (Nat.eq_zero_of_zero_dvd hdk) (pow_ne_zero k (by norm_num))
    rcases eq_or_ne d 1 with rfl | hd1
    · exact one_dvd _
    have hp : Nat.Prime d.minFac := Nat.minFac_prime hd1
    have hpd : d.minFac ∣ d := Nat.minFac_dvd d
    have hp10 : d.minFac ∣ 10 := hp.dvd_of_dvd_pow (hpd.trans hdk)
    obtain ⟨d', hd'⟩ := hpd
    have hd'0 : 0 < d' := by
      rcases Nat.eq_zero_or_pos d' with rfl | h
      · rw [Nat.mul_zero] at hd'
        omega
      · exact h
    have hp2 : 2 ≤ d.minFac := hp.two_le
    have hd'lt : d' < d := by
      have h2 : 2 * d' ≤ d.minFac * d' := Nat.mul_le_mul_right d' hp2
      omega
    have hd'd : d' ∣ d := by
      rw [hd']
      exact dvd_mul_left d' d.minFac
    have hd'dvd : d' ∣ 10 ^ k := dvd_trans hd'd hdk
    have ihd' : d' ∣ 10 ^ d' := ih d' hd'lt k hd'dvd
    have h1 : d ∣ 10 ^ (d' + 1) := by
      rw [hd', pow_succ']
      exact mul_dvd_mul hp10 ihd'
    refine h1.trans (pow_dvd_pow 10 ?_)
    have h2 : 2 * d' ≤ d.minFac * d' := Nat.mul_le_mul_right d' hp2
    omega

theorem den_dvd_of_div_pow (m L : ℕ) : ((m : ℚ) / 10 ^ L).den ∣ 10 ^ L := by
  have h := Rat.den_dvd (m : ℤ) ((10 : ℤ) ^ L)
  rw [Rat.divInt_eq_div] at h
  have hcast : ((m : ℤ) : ℚ) / (((10 : ℤ) ^ L : ℤ) : ℚ) = (m : ℚ) / 10 ^ L := by
    push_cast
    ring
  rw [hcast] at h
  have h10 : ((10 : ℤ) ^ L) = ((10 ^ L : ℕ) : ℤ) := by push_cast; ring
  rw [h10] at h
  exact_mod_cast h

theorem parseUnsignedChars_eq (cs : List Char) (q : ℚ)
    (h : parseUnsignedChars cs = some q) : ∃ m L : ℕ, q = (m : ℚ) / 10 ^ L := by
  unfold parseUnsignedChars at h
  split at h
  · split at h
    · exact absurd h (by simp)
    · split at h
      · rename_i n hn
        refine ⟨n, 0, ?_⟩
        rw [← Option.some_inj.mp h]
        simp
      · exact absurd h (by simp)
  · rename_i frac hfrac
    split at h
    · exact absurd h (by simp)
    · split at h
      · rename_i n f hn hf
        refine ⟨n * 10 ^ frac.length + f, frac.length, ?_⟩
        rw [← Option.some_inj.mp h]
        have hz : ((10 : ℚ) ^ frac.length) ≠ 0 := pow_ne_zero _ (by norm_num)
        rw [eq_div_iff hz, add_mul, div_mul_cancel₀ _ hz]
        push_cast
        ring
      · exact absurd h (by simp)

theorem toNumericChars_shape (cs : List Char) (q : ℚ)
    (h : toNumericChars cs = some q) :
    ∃ m L : ℕ, q = (m : ℚ) / 10 ^ L ∨ q = -((m : ℚ) / 10 ^ L) := by
  unfold toNumericChars at h
  split at h
  · exact absurd h (by simp)
  rename_i c rest
  split at h
  · split at h
    · rename_i p hp
      obtain ⟨m, L, hq'⟩ := parseUnsignedChars_eq rest p hp
      refine ⟨m, L, Or.inr ?_⟩
      rw [← Option.some_inj.mp h, hq']
    · exact absurd h (by simp)
  split at h
  · obtain ⟨m, L, hq⟩ := parseUnsignedChars_eq rest q h
    exact ⟨m, L, Or.inl hq⟩
  · obtain ⟨m, L, hq⟩ := parseUnsignedChars_eq _ q h
    exact ⟨m, L, Or.inl hq⟩

theorem toNumericChars_den (cs : List Char) (q : ℚ)
    (h : toNumericChars cs = some q) : (q.den : ℕ) ∣ 10 ^ q.den := by
  obtain ⟨m, L, hq | hq⟩ := toNumericChars_shape cs q h
  · have h1 := den_dvd_of_div_pow m L
    rw [← hq] at h1
    exact dvd_ten_pow_self q.den L h1
  · have h1 := den_dvd_of_div_pow m L
    have h2 : q.den = ((m : ℚ) / 10 ^ L).den := by
      rw [hq]
      exact Rat.den_neg_eq_den _
    rw [← h2] at h1
    exact dvd_ten_pow_self q.den L h1

theorem parseUnsigned_render_core (I F : List Char) (nI nF : ℕ)
    (hI : parseNatDigits I = some nI) (hIne : I ≠ [])
    (hIdig : ∀ c ∈ I, c.isDigit = true)
    (hF : parseNatDigits F = some nF) :
    parseUnsignedChars (I ++ '.' :: F) = some ((nI : ℚ) + (nF : ℚ) / 10 ^ F.length) := by
  have hdot : '.' ∉ I := by
    intro hm
    exact absurd (hIdig '.' hm) (by decide)
  unfold parseUnsignedChars
  rw [breakDot_split I F hdot]
  dsimp only
  rw [if_neg (by simp [hIne]), hI, hF]

theorem toNumericChars_renderDec (q : ℚ) (hq : (q.den : ℕ) ∣ 10 ^ q.den) :
    toNumericChars (renderDec q).data = some q := by
  have hd0 : q.den ≠ 0 := q.den_ne_zero
  have hdvdA : q.den ∣ q.num.natAbs * 10 ^ q.den := Dvd.dvd.mul_left hq q.num.natAbs
  have hAd : ((q.num.natAbs * 10 ^ q.den / q.den : ℕ) : ℚ) * (q.den : ℚ)
      = (q.num.natAbs : ℚ) * 10 ^ q.den := by
    have h1 := Nat.div_mul_cancel hdvdA
    exact_mod_cast congrArg (fun x : ℕ => (x : ℚ)) h1
  have h10 : ((10 : ℚ) ^ q.den) ≠ 0 := pow_ne_zero _ (by norm_num)
  have hdq : ((q.den : ℕ) : ℚ) ≠ 0 := Nat.cast_ne_zero.mpr hd0
  have hdmQ : (10 : ℚ) ^ q.den * ((q.num.natAbs * 10 ^ q.den / q.den / 10 ^ q.den : ℕ) : ℚ)
      + ((q.num.natAbs * 10 ^ q.den / q.den % 10 ^ q.den : ℕ) : ℚ)
      = ((q.num.natAbs * 10 ^ q.den / q.den : ℕ) : ℚ) := by
    have h1 := Nat.div_add_mod (q.num.natAbs * 10 ^ q.den / q.den) (10 ^ q.den)
    exact_mod_cast congrArg (fun x : ℕ => (x : ℚ)) h1
  have hval : ((q.num.natAbs * 10 ^ q.den / q.den / 10 ^ q.den : ℕ) : ℚ)
      + ((q.num.natAbs * 10 ^ q.den / q.den % 10 ^ q.den : ℕ) : ℚ) / 10 ^ q.den
      = (q.num.natAbs : ℚ) / (q.den : ℚ) := by
    field_simp
    linear_combination ((q.den : ℕ) : ℚ) * hdmQ + hAd
  have hIparse := parse_renderNatChars (q.num.natAbs * 10 ^ q.den / q.den / 10 ^ q.den)
  have hFparse : parseNatDigits (padDigits q.den (q.num.natAbs * 10 ^ q.den / q.den % 10 ^ q.den))
      = some (q.num.natAbs * 10 ^ q.den / q.den % 10 ^ q.den) := by
    rw [parse_padDigits]
    congr 1
    exact Nat.mod_mod_of_dvd _ dvd_rfl
  have hcore := parseUnsigned_render_core
    (renderNatChars (q.num.natAbs * 10 ^ q.den / q.den / 10 ^ q.den))
    (padDigits q.den (q.num.natAbs * 10 ^ q.den / q.den % 10 ^ q.den))
    (q.num.natAbs * 10 ^ q.den / q.den / 10 ^ q.den)
    (q.num.natAbs * 10 ^ q.den / q.den % 10 ^ q.den)
    hIparse (renderNatChars_ne_nil _) (renderNatChars_digits _) hFparse
  rw [padDigits_length] at hcore
  rw [hval] at hcore
  by_cases hneg : q.num < 0
  · have hdata : (renderDec q).data
        = '-' :: (renderNatChars (q.num.natAbs * 10 ^ q.den / q.den / 10 ^ q.den)
            ++ '.' :: padDigits q.den (q.num.natAbs * 10 ^ q.den / q.den % 10 ^ q.den)) := by
      rw [renderDec]
      rw [if_pos hneg]
      rfl
    rw [hdata]
    unfold toNumericChars
    dsimp only
    rw [if_pos rfl, hcore]
    dsimp only
    congr 1
    have h1 : ((q.num.natAbs : ℕ) : ℤ) = -q.num := Int.ofNat_natAbs_of_nonpos (le_of_lt hneg)
    have hNq : (q.num.natAbs : ℚ) = -((q.num : ℤ) : ℚ) := by
      have h2 : (((q.num.natAbs : ℕ) : ℤ) : ℚ) = ((-q.num : ℤ) : ℚ) :=
        congrArg (fun z : ℤ => (z : ℚ)) h1
      rw [Int.cast_natCast] at h2
      rw [h2, Int.cast_neg]
    rw [hNq, neg_div, neg_neg, Rat.num_div_den]
  · obtain ⟨c, I', hcons⟩ :=
      List.exists_cons_of_ne_nil
        (renderNatChars_ne_nil (q.num.natAbs * 10 ^ q.den / q.den / 10 ^ q.den))
    have hcdig : c.isDigit = true := by
      apply renderNatChars_digits (q.num.natAbs * 10 ^ q.den / q.den / 10 ^ q.den)
      rw [hcons]
      exact List.mem_cons_self c I'
    have hcm : c ≠ '-' := by
      intro hc
      rw [hc] at hcdig
      exact absurd hcdig (by decide)
    have hcp : c ≠ '+' := by
      intro hc
      rw [hc] at hcdig
      exact absurd hcdig (by decide)
    have hdata : (renderDec q).data
        = renderNatChars (q.num.natAbs * 10 ^ q.den / q.den / 10 ^ q.den)
            ++ '.' :: padDigits q.den (q.num.natAbs * 10 ^ q.den / q.den % 10 ^ q.den) := by
      rw [renderDec]
      rw [if_neg hneg]
      rfl
    rw [hdata, hcons, List.cons_append]
    unfold toNumericChars
    dsimp only
    rw [if_neg hcm, if_neg hcp, ← List.cons_append, ← hcons, hcore]
    congr 1
    have h1 : ((q.num.natAbs : ℕ) : ℤ) = q.num := Int.natAbs_of_nonneg (not_lt.mp hneg)
    have hNq : (q.num.natAbs : ℚ) = ((q.num : ℤ) : ℚ) := by
      have h2 : (((q.num.natAbs : ℕ) : ℤ) : ℚ) = ((q.num : ℤ) : ℚ) :=
        congrArg (fun z : ℤ => (z : ℚ)) h1
      rw [Int.cast_natCast] at h2
      exact h2
    rw [hNq, Rat.num_div_den]

theorem renderNatChars_not_special (n : ℕ) :
    ∀ c ∈ renderNatChars n, c ≠ ',' ∧ c ≠ '%' := by
  intro c hc
  have hd := renderNatChars_digits n c hc
  constructor <;> intro he <;> rw [he] at hd <;> exact absurd hd (by decide)

theorem padDigits_not_special (k n : ℕ) :
    ∀ c ∈ padDigits k n, c ≠ ',' ∧ c ≠ '%' := by
  intro c hc
  have hd := padDigits_digits k n c hc
  constructor <;> intro he <;> rw [he] at hd <;> exact absurd hd (by decide)

theorem renderDec_not_special (q : ℚ) :
    ∀ c ∈ (renderDec q).data, c ≠ ',' ∧ c ≠ '%' := by
  intro c hc
  rw [renderDec] at hc
  simp only [String.data] at hc
  rcases List.mem_append.mp hc with h | h
  · rcases List.mem_append.mp h with h1 | h1
    · by_cases hneg : q.num < 0
      · rw [if_pos hneg] at h1
        rw [List.mem_singleton.mp h1]
        exact ⟨by decide, by decide⟩
      · rw [if_neg hneg] at h1
        simp at h1
    · exact renderNatChars_not_special _ c h1
  · rcases List.mem_cons.mp h with h1 | h1
    · rw [h1]
      exact ⟨by decide, by decide⟩
    · exact padDigits_not_special _ _ c h1

theorem cleanCell_renderDec (p : Bool) (q : ℚ) (hq : (q.den : ℕ) ∣ 10 ^ q.den) :
    cleanCell p (renderDec q) = some q := by
  have hfilter1 : (renderDec q).data.filter (fun c => c ≠ ',') = (renderDec q).data :=
    List.filter_eq_self.mpr
      (fun c hc => decide_eq_true ((renderDec_not_special q c hc).1))
  have hfilter2 : (renderDec q).data.filter (fun c => c ≠ '%') = (renderDec q).data :=
    List.filter_eq_self.mpr
      (fun c hc => decide_eq_true ((renderDec_not_special q c hc).2))
  unfold cleanCell
  cases p
  · rw [if_neg (by simp), hfilter1]
    exact toNumericChars_renderDec q hq
  · rw [if_pos rfl, hfilter1, hfilter2]
    exact toNumericChars_renderDec q hq

theorem cleanCell_den (p : Bool) (s : String) (q : ℚ)
    (h : cleanCell p s = some q) : (q.den : ℕ) ∣ 10 ^ q.den := by
  unfold cleanCell at h
  cases p
  · rw [if_neg (by simp)] at h
    exact toNumericChars_den _ q h
  · rw [if_pos rfl] at h
    exact toNumericChars_den _ q h

theorem mem_insertMvDesc (r a : CleanRow) :
    ∀ l : List CleanRow, a ∈ insertMvDesc r l ↔ a = r ∨ a ∈ l := by
  intro l
  induction l with
  | nil => simp [insertMvDesc]
  | cons x xs ih =>
    rw [insertMvDesc]
    by_cases h : mvKey x < mvKey r
    · rw [if_pos h]
      simp only [List.mem_cons]
    · rw [if_neg h]
      simp only [List.mem_cons, ih]
      tauto

theorem sorted_insertMvDesc (r : CleanRow) :
    ∀ l : List CleanRow, l.Pairwise (fun a b => mvKey b ≤ mvKey a) →
      (insertMvDesc r l).Pairwise (fun a b => mvKey b ≤ mvKey a) := by
  intro l
  induction l with
  | nil => intro _; simp [insertMvDesc]
  | cons x xs ih =>
    intro hs
    rcases List.pairwise_cons.mp hs with ⟨hx, hxs⟩
    rw [insertMvDesc]
    by_cases h : mvKey x < mvKey r
    · rw [if_pos h]
      refine List.pairwise_cons.mpr ⟨?_, hs⟩
      intro b hb
      rcases List.mem_cons.mp hb with rfl | hb
      · exact le_of_lt h
      · exact le_trans (hx b hb) (le_of_lt h)
    · rw [if_neg h]
      refine List.pairwise_cons.mpr ⟨?_, ih hxs⟩
      intro b hb
      rcases (mem_insertMvDesc r b xs).mp hb with rfl | hb
      · exact not_lt.mp h
      · exact hx b hb

theorem mem_sortMvDesc_aux :
    ∀ (l acc : List CleanRow) (a : CleanRow),
      a ∈ l.foldl (fun acc r => insertMvDesc r acc) acc → a ∈ acc ∨ a ∈ l := by
  intro l
  induction l with
  | nil => intro acc a h; exact Or.inl h
  | cons x xs ih =>
    intro acc a h
    rcases ih (insertMvDesc x acc) a h with h1 | h1
    · rcases (mem_insertMvDesc x a acc).mp h1 with rfl | h1
      · exact Or.inr (List.mem_cons_self a xs)
      · exact Or.inl h1
    · exact Or.inr (List.mem_cons_of_mem x h1)

theorem sorted_sortMvDesc_aux :
    ∀ l acc : List CleanRow, acc.Pairwise (fun a b => mvKey b ≤ mvKey a) →
      (l.foldl (fun acc r => insertMvDesc r acc) acc).Pairwise
        (fun a b => mvKey b ≤ mvKey a) := by
  intro l
  induction l with
  | nil => intro acc h; exact h
  | cons x xs ih => intro acc h; exact ih _ (sorted_insertMvDesc x acc h)

theorem mem_sortMvDesc (l : List CleanRow) (a : CleanRow)
    (h : a ∈ sortMvDesc l) : a ∈ l := by
  rcases mem_sortMvDesc_aux l [] a h with h1 | h1
  · simp at h1
  · exact h1

theorem sorted_sortMvDesc (l : List CleanRow) :
    (sortMvDesc l).Pairwise (fun a b => mvKey b ≤ mvKey a) :=
  sorted_sortMvDesc_aux l [] List.Pairwise.nil

theorem formatFixed4_ne_error (q : ℚ) : formatFixed4 q ≠ "ERROR" := by
  intro h
  have hmem : '.' ∈ (formatFixed4 q).data := by
    rw [formatFixed4]
    exact List.mem_append.mpr (Or.inr (List.mem_cons_self '.' _))
  rw [h] at hmem
  exact absurd hmem (by decide)

theorem final_result_status_cases (so : Option ℚ) (total : ℚ)
    (missing : List String) :
    final_result_status so total missing = "ERROR"
    ∨ ∃ s : ℚ, final_result_status so total missing = formatFixed4 (total / s) := by
  rcases so with _ | s
  · exact Or.inl rfl
  by_cases h1 : s ≤ 0
  · left
    unfold final_result_status
    dsimp only
    rw [if_pos h1]
  by_cases h2 : missing = []
  · right
    refine ⟨s, ?_⟩
    unfold final_result_status
    dsimp only
    rw [if_neg h1, if_pos h2]
  · left
    unfold final_result_status
    dsimp only
    rw [if_neg h1, if_neg h2]

theorem valueRow_of_zero (env : PriceEnv) (st : ValState) (r : CleanRow)
    (h : rowDelta env r = (0, [])) : valueRow env st r = st := by
  rw [valueRow, h]
  simp

theorem rowDelta_cash (env : PriceEnv) (r : CleanRow)
    (hclass : r.assetClass = Cell.str "Cash") (hsh : r.shares ≠ none)
    (htk : r.ticker ≠ Cell.str "N/A") (hcur : r.marketCurrency ≠ Cell.str "N/A") :
    rowDelta env r =
      match r.marketValue with
      | none => (0, [])
      | some amt =>
        if r.marketCurrency = Cell.str "USD" then (amt, [])
        else if r.marketCurrency = Cell.str "EUR" then
          match env.eurUsd with
          | some fx => (amt * fx, [])
          | none => (0, ["EUR Cash"])
        else if r.marketCurrency = Cell.str "GBP" then
          match env.gbpUsd with
          | some fx => (amt * fx, [])
          | none => (0, ["GBP Cash"])
        else (0, [cellStr r.marketCurrency ++ " Cash"]) := by
  have hg : ¬(r.shares = none ∨ r.ticker = Cell.str "N/A" ∨
      r.marketCurrency = Cell.str "N/A" ∨ r.assetClass = Cell.str "N/A") := by
    push_neg
    refine ⟨hsh, htk, hcur, ?_⟩
    rw [hclass]
    intro h
    exact absurd (Cell.str.inj h) (by decide)
  have heq : ¬r.assetClass = Cell.str "Equity" := by
    rw [hclass]
    intro h
    exact absurd (Cell.str.inj h) (by decide)
  rw [rowDelta, if_neg hg, if_neg heq, if_pos hclass]

theorem rowDelta_equity_invalid (env : PriceEnv) (r : CleanRow)
    (hclass : r.assetClass = Cell.str "Equity") (hsh : r.shares ≠ none)
    (hcur : r.marketCurrency ≠ Cell.str "N/A")
    (hinv : invalidTicker r.ticker = true) : rowDelta env r = (0, []) := by
  have htk : r.ticker ≠ Cell.str "N/A" := by
    intro h
    rw [h] at hinv
    exact absurd hinv (by decide)
  have hg : ¬(r.shares = none ∨ r.ticker = Cell.str "N/A" ∨
      r.marketCurrency = Cell.str "N/A" ∨ r.assetClass = Cell.str "N/A") := by
    push_neg
    refine ⟨hsh, htk, hcur, ?_⟩
    rw [hclass]
    intro h
    exact absurd (Cell.str.inj h) (by decide)
  rw [rowDelta, if_neg hg, if_pos hclass, if_pos hinv]

/-- C1: all-or-nothing publication policy — whenever `missing_prices` is
non-empty at aggregation time, `final_result_status` is the `"ERROR"`
sentinel, whatever the portfolio total and shares-outstanding figure; a
numeric NAV string is never produced while a valuation failure is
recorded. -/
theorem c1_all_or_nothing (so : Option ℚ) (total : ℚ) (missing : List String)
    (h : missing ≠ []) : final_result_status so total missing = "ERROR" := by
  rcases so with _ | s
  · rfl
  unfold final_result_status
  dsimp only
  by_cases h1 : s ≤ 0
  · rw [if_pos h1]
  · rw [if_neg h1, if_neg h]

theorem c1_witness :
    final_result_status (some 1000) 15500 ["AAPL"] = "ERROR" :=
  c1_all_or_nothing (some 1000) 15500 ["AAPL"] (by decide)

/-- C2: NAV aggregator contract — a null or non-positive shares-outstanding
figure forces the `"ERROR"` outcome regardless of the running total;
otherwise, with no missing valuations, the outcome is
`total / sharesOutstanding` formatted to exactly four decimal places. -/
theorem c2_nav_aggregator_contract (so : Option ℚ) (total : ℚ)
    (missing : List String) :
    ((so = none ∨ ∃ s, so = some s ∧ s ≤ 0) →
      final_result_status so total missing = "ERROR")
    ∧ (∀ s, so = some s → 0 < s → missing = [] →
        final_result_status so total missing = formatFixed4 (total / s)) := by
  constructor
  · rintro (rfl | ⟨s, rfl, hs⟩)
    · rfl
    · unfold final_result_status
      dsimp only
      rw [if_pos hs]
  · rintro s rfl hs hm
    unfold final_result_status
    dsimp only
    rw [if_neg (not_le.mpr hs), if_pos hm]

theorem c2_witness :
    final_result_status none 15500 [] = "ERROR"
    ∧ final_result_status (some 1000) 15500 [] = formatFixed4 (15500 / 1000) :=
  ⟨(c2_nav_aggregator_contract none 15500 []).1 (Or.inl rfl),
    (c2_nav_aggregator_contract (some 1000) 15500 []).2 1000 rfl (by decide) rfl⟩

/-- C3: cash-row valuation rule for a cleaned row reaching the `Cash`
branch (non-null shares and no `"N/A"` sentinel, which the loop skips
beforehand): a null market value is skipped without being recorded; a USD
amount passes through unchanged; EUR/GBP amounts are converted when the
run's FX rate is present and otherwise recorded as `"{currency} Cash"`
with zero contribution; any other currency is always recorded as missing
with zero contribution, whatever the FX availability. -/
theorem c3_cash_row_valuation (env : PriceEnv) (st : ValState) (r : CleanRow)
    (hclass : r.assetClass = Cell.str "Cash") (hsh : r.shares ≠ none)
    (htk : r.ticker ≠ Cell.str "N/A")
    (hcur : r.marketCurrency ≠ Cell.str "N/A") :
    (r.marketValue = none → valueRow env st r = st)
    ∧ (∀ amt, r.marketValue = some amt →
        (r.marketCurrency = Cell.str "USD" →
          valueRow env st r = ⟨st.total + amt, st.missing⟩)
        ∧ (r.marketCurrency = Cell.str "EUR" →
            (∀ fx, env.eurUsd = some fx →
              valueRow env st r = ⟨st.total + amt * fx, st.missing⟩)
            ∧ (env.eurUsd = none →
                valueRow env st r = ⟨st.total, st.missing ++ ["EUR Cash"]⟩))
        ∧ (r.marketCurrency = Cell.str "GBP" →
            (∀ fx, env.gbpUsd = some fx →
              valueRow env st r = ⟨st.total + amt * fx, st.missing⟩)
            ∧ (env.gbpUsd = none →
                valueRow env st r = ⟨st.total, st.missing ++ ["GBP Cash"]⟩))
        ∧ (∀ c, r.marketCurrency = Cell.str c →
            c ≠ "USD" → c ≠ "EUR" → c ≠ "GBP" →
            valueRow env st r = ⟨st.total, st.missing ++ [c ++ " Cash"]⟩)) := by
  have hdc := rowDelta_cash env r hclass hsh htk hcur
  constructor
  · intro hmv
    rw [hmv] at hdc
    exact valueRow_of_zero env st r hdc
  · intro amt hmv
    rw [hmv] at hdc
    dsimp only at hdc
    refine ⟨?_, ?_, ?_, ?_⟩
    · intro husd
      rw [if_pos husd] at hdc
      rw [valueRow, hdc]
      simp
    · intro heur
      have hne : ¬r.marketCurrency = Cell.str "USD" := by
        rw [heur]
        intro h
        exact absurd (Cell.str.inj h) (by decide)
      rw [if_neg hne, if_pos heur] at hdc
      constructor
      · intro fx hfx
        rw [hfx] at hdc
        rw [valueRow, hdc]
        simp
      · intro hfx
        rw [hfx] at hdc
        rw [valueRow, hdc]
        simp
    · intro hgbp
      have hne1 : ¬r.marketCurrency = Cell.str "USD" := by
        rw [hgbp]
        intro h
        exact absurd (Cell.str.inj h) (by decide)
      have hne2 : ¬r.marketCurrency = Cell.str "EUR" := by
        rw [hgbp]
        intro h
        exact absurd (Cell.str.inj h) (by decide)
      rw [if_neg hne1, if_neg hne2, if_pos hgbp] at hdc
      constructor
      · intro fx hfx
        rw [hfx] at hdc
        rw [valueRow, hdc]
        simp
      · intro hfx
        rw [hfx] at hdc
        rw [valueRow, hdc]
        simp
    · intro c hc hc1 hc2 hc3
      have hne1 : ¬r.marketCurrency = Cell.str "USD" := by
        rw [hc]
        intro h
        exact absurd (Cell.str.inj h) hc1
      have hne2 : ¬r.marketCurrency = Cell.str "EUR" := by
        rw [hc]
        intro h
        exact absurd (Cell.str.inj h) hc2
      have hne3 : ¬r.marketCurrency = Cell.str "GBP" := by
        rw [hc]
        intro h
        exact absurd (Cell.str.inj h) hc3
      rw [if_neg hne1, if_neg hne2, if_neg hne3, hc] at hdc
      rw [valueRow, hdc]
      simp [cellStr]

theorem c3_witness :
    valueRow ⟨fun _ => none, fun _ => none, fun _ => none, fun _ => false, none, none⟩
        ⟨0, []⟩
        ⟨Cell.str "USD", some 1, Cell.str "USD", Cell.str "Cash", some 500⟩
      = ⟨(0 : ℚ) + 500, ([] : List String)⟩ :=
  ((c3_cash_row_valuation
      ⟨fun _ => none, fun _ => none, fun _ => none, fun _ => false, none, none⟩
      ⟨0, []⟩
      ⟨Cell.str "USD", some 1, Cell.str "USD", Cell.str "Cash", some 500⟩
      rfl (by decide) (by decide) (by decide)).2 500 rfl).1 rfl

/-- C6: cleaning invariant — every row retained by the cleaning step has a
non-null `Ticker`, `Shares`, `Market Currency` and `Asset Class` (rows
with any of these null after numeric coercion are dropped), and the
cleaning functions of the two ingestion variants are identical. -/
theorem c6_cleaning_invariant :
    (∀ (rows : List RawRow) (r : CleanRow), r ∈ cleanTableOnline rows →
      r.ticker ≠ Cell.null ∧ r.shares ≠ none
        ∧ r.marketCurrency ≠ Cell.null ∧ r.assetClass ≠ Cell.null)
    ∧ cleanTableOnline = cleanTableXls := by
  constructor
  · intro rows r hr
    have h := (List.mem_filter.mp hr).2
    rw [keepRow] at h
    simp only [Bool.and_eq_true, decide_eq_true_eq,
      Option.isSome_iff_ne_none] at h
    exact ⟨h.1.1.1, h.1.1.2, h.1.2, h.2⟩
  · rfl

theorem c6_witness :
    (⟨Cell.str "AAPL", some 100, Cell.str "USD", Cell.str "Equity",
        some 5⟩ : CleanRow).ticker ≠ Cell.null
    ∧ (⟨Cell.str "AAPL", some 100, Cell.str "USD", Cell.str "Equity",
        some 5⟩ : CleanRow).shares ≠ none
    ∧ (⟨Cell.str "AAPL", some 100, Cell.str "USD", Cell.str "Equity",
        some 5⟩ : CleanRow).marketCurrency ≠ Cell.null
    ∧ (⟨Cell.str "AAPL", some 100, Cell.str "USD", Cell.str "Equity",
        some 5⟩ : CleanRow).assetClass ≠ Cell.null :=
  c6_cleaning_invariant.1
    [⟨Cell.str "AAPL", Cell.num 100, Cell.str "USD", Cell.str "Equity",
      Cell.num 5⟩]
    ⟨Cell.str "AAPL", some 100, Cell.str "USD", Cell.str "Equity", some 5⟩
    (by decide)

/-- C7: top-10 selection — the list holds at most ten tickers, each drawn
from a row with `Asset Class = Equity` and a non-null pre-repricing
`Market Value`; the selected rows are ordered descending by that column;
and the selection is independent of the market-data environment used by
the subsequent valuation loop. -/
theorem c7_top10_selection (rows : List CleanRow) :
    (top_10_equities rows).length ≤ 10
    ∧ (∀ t ∈ top_10_equities rows, ∃ r, r ∈ rows ∧ r.ticker = t
        ∧ r.assetClass = Cell.str "Equity" ∧ r.marketValue.isSome = true)
    ∧ List.Pairwise (fun a b => mvKey b ≤ mvKey a) (top10Rows rows)
    ∧ (∀ env env' : PriceEnv,
        (valuationResult env rows).2 = (valuationResult env' rows).2) := by
  refine ⟨?_, ?_, ?_, fun _ _ => rfl⟩
  · rw [top_10_equities, List.length_map, top10Rows]
    exact List.length_take_le 10 _
  · intro t ht
    rw [top_10_equities] at ht
    obtain ⟨r, hr, rfl⟩ := List.mem_map.mp ht
    rw [top10Rows] at hr
    have hr1 := List.mem_of_mem_take hr
    have hr2 := mem_sortMvDesc _ _ hr1
    have hr3 := List.mem_filter.mp hr2
    have hp := hr3.2
    simp only [Bool.and_eq_true, decide_eq_true_eq] at hp
    exact ⟨r, hr3.1, rfl, hp.1, hp.2⟩
  · rw [top10Rows]
    exact List.Pairwise.sublist (List.take_sublist _ _) (sorted_sortMvDesc _)

theorem c7_witness :
    ∃ r, r ∈ [(⟨Cell.str "AAPL", some 100, Cell.str "USD", Cell.str "Equity",
        some 2⟩ : CleanRow)] ∧ r.ticker = Cell.str "AAPL"
      ∧ r.assetClass = Cell.str "Equity" ∧ r.marketValue.isSome = true :=
  (c7_top10_selection
      [⟨Cell.str "AAPL", some 100, Cell.str "USD", Cell.str "Equity", some 2⟩]).2.1
    (Cell.str "AAPL") (by decide)

/-- C8: Numeric Normalizer idempotence — re-cleaning the decimal rendering
of any value the normalizer produced returns the same value;
`"1,234.50"` cleans to `1234.50`, re-cleaning `"1234.50"` again yields
`1234.50`; and the normalizer is a total function that returns null
(rather than raising) on unparsable input. -/
theorem c8_normalizer_idempotent :
    (∀ (p : Bool) (s : String) (q : ℚ), cleanCell p s = some q →
      cleanCell p (renderDec q) = some q)
    ∧ cleanCell false "1,234.50" = some (2469 / 2)
    ∧ cleanCell false "1234.50" = some (2469 / 2)
    ∧ cleanCell false "not a number" = none := by
  refine ⟨fun p s q h => cleanCell_renderDec p q (cleanCell_den p s q h),
    ?_, ?_, rfl⟩
  · have h : cleanCell false "1,234.50"
        = some ((1234 : ℚ) + (50 : ℚ) / (10 : ℚ) ^ (2 : ℕ)) := rfl
    rw [h]
    norm_num
  · have h : cleanCell false "1234.50"
        = some ((1234 : ℚ) + (50 : ℚ) / (10 : ℚ) ^ (2 : ℕ)) := rfl
    rw [h]
    norm_num

theorem c8_witness :
    cleanCell false
      (renderDec ((1234 : ℚ) + (50 : ℚ) / (10 : ℚ) ^ (2 : ℕ)))
      = some ((1234 : ℚ) + (50 : ℚ) / (10 : ℚ) ^ (2 : ℕ)) :=
  c8_normalizer_idempotent.1 false "1,234.50"
    ((1234 : ℚ) + (50 : ℚ) / (10 : ℚ) ^ (2 : ℕ)) rfl

/-- C9 counterexample: a cleaned `Cash`/`USD` row with negative
`Market Value` (the cleaning step never checks signs) strictly decreases
the running total, refuting "processing a row never decreases the running
total" at a concrete input. -/
theorem c9_counterexample :
    (valueRow
        ⟨fun _ => none, fun _ => none, fun _ => none, fun _ => false, none, none⟩
        initialValState
        ⟨Cell.str "USD", some 1, Cell.str "USD", Cell.str "Cash", some (-5)⟩).total
      < initialValState.total := by
  have hd : rowDelta
      ⟨fun _ => none, fun _ => none, fun _ => none, fun _ => false, none, none⟩
      (⟨Cell.str "USD", some 1, Cell.str "USD", Cell.str "Cash",
        some (-5)⟩ : CleanRow) = (-5, []) := by decide
  rw [valueRow, hd]
  norm_num [initialValState]

/-- C9 (amended): the accumulator starts at `0`, each row changes the
total by exactly its own contribution, and whenever that contribution is
non-negative — the situation the specification describes, since it takes
share counts, prices and cash amounts to be non-negative — the total does
not decrease. Rows with a negative market value or price decrease it. -/
theorem c9_amended_monotonic (env : PriceEnv) (st : ValState) (r : CleanRow) :
    initialValState.total = 0
    ∧ (valueRow env st r).total = st.total + rowContribution env r
    ∧ (0 ≤ rowContribution env r → st.total ≤ (valueRow env st r).total) :=
  ⟨rfl, rfl, fun h => le_add_of_nonneg_right h⟩

theorem c9_witness :
    initialValState.total = 0
    ∧ (valueRow
          ⟨fun _ => none, fun _ => none, fun _ => none, fun _ => false, none, none⟩
          initialValState
          ⟨Cell.null, none, Cell.null, Cell.null, none⟩).total
        = initialValState.total
          + rowContribution
              ⟨fun _ => none, fun _ => none, fun _ => none, fun _ => false, none, none⟩
              ⟨Cell.null, none, Cell.null, Cell.null, none⟩
    ∧ initialValState.total
        ≤ (valueRow
            ⟨fun _ => none, fun _ => none, fun _ => none, fun _ => false, none, none⟩
            initialValState
            ⟨Cell.null, none, Cell.null, Cell.null, none⟩).total :=
  ⟨(c9_amended_monotonic
      ⟨fun _ => none, fun _ => none, fun _ => none, fun _ => false, none, none⟩
      initialValState ⟨Cell.null, none, Cell.null, Cell.null, none⟩).1,
   (c9_amended_monotonic
      ⟨fun _ => none, fun _ => none, fun _ => none, fun _ => false, none, none⟩
      initialValState ⟨Cell.null, none, Cell.null, Cell.null, none⟩).2.1,
   (c9_amended_monotonic
      ⟨fun _ => none, fun _ => none, fun _ => none, fun _ => false, none, none⟩
      initialValState ⟨Cell.null, none, Cell.null, Cell.null, none⟩).2.2
     (by decide)⟩

/-- C10 (implicit): an `Equity` row whose ticker is not a string, is
longer than ten characters, or contains a space is skipped before any
price lookup — it contributes nothing to the total and is not recorded in
`missing_prices` — and a run whose other rows all valued cleanly still
publishes a numeric NAV while such rows remain unvalued. -/
theorem c10_invalid_ticker_skip (env : PriceEnv) (st : ValState) (r : CleanRow)
    (hclass : r.assetClass = Cell.str "Equity") (hsh : r.shares ≠ none)
    (hcur : r.marketCurrency ≠ Cell.str "N/A")
    (hinv : invalidTicker r.ticker = true) :
    valueRow env st r = st
    ∧ (st.missing = [] → ∀ s : ℚ, 0 < s →
        final_result_status (some s) (valueRow env st r).total
            (valueRow env st r).missing
          = formatFixed4 ((valueRow env st r).total / s)) := by
  have hskip : valueRow env st r = st :=
    valueRow_of_zero env st r (rowDelta_equity_invalid env r hclass hsh hcur hinv)
  refine ⟨hskip, ?_⟩
  intro hm s hs
  rw [hskip]
  unfold final_result_status
  dsimp only
  rw [if_neg (not_le.mpr hs), if_pos hm]

theorem c10_witness :
    valueRow ⟨fun _ => none, fun _ => none, fun _ => none, fun _ => false, none, none⟩
        initialValState
        ⟨Cell.str "LONGTICKER1", some 1, Cell.str "USD", Cell.str "Equity", none⟩
      = initialValState :=
  (c10_invalid_ticker_skip
      ⟨fun _ => none, fun _ => none, fun _ => none, fun _ => false, none, none⟩
      initialValState
      ⟨Cell.str "LONGTICKER1", some 1, Cell.str "USD", Cell.str "Equity", none⟩
      rfl (by decide) (by decide) (by decide)).1

/-- C4: exit and sentinel contract — the run exits with code 1 exactly
when the result file ends the run holding the `"ERROR"` sentinel (every
fatal path writes it before exiting), and exits with code 0 exactly when
the result file holds a 4-decimal formatted NAV string. -/
theorem c4_exit_sentinel_contract (e : OnlineEnv) :
    ((runOnline e).exitCode = 1 ↔ (runOnline e).resultFile = some "ERROR")
    ∧ ((runOnline e).exitCode = 0 ↔
        ∃ q : ℚ, (runOnline e).resultFile = some (formatFixed4 q)) := by
  have herrcase : ∀ res : RunResult, res.resultFile = some "ERROR" →
      res.exitCode = 1 →
      ((res.exitCode = 1 ↔ res.resultFile = some "ERROR")
        ∧ (res.exitCode = 0 ↔
            ∃ q : ℚ, res.resultFile = some (formatFixed4 q))) := by
    intro res h1 h2
    constructor
    · rw [h1, h2]
      simp
    · rw [h1, h2]
      constructor
      · intro h
        exact absurd h (by norm_num)
      · rintro ⟨q, hq⟩
        exact absurd (Option.some_inj.mp hq).symm (formatFixed4_ne_error q)
  rcases hpf : e.pageFetch with _ | so
  · have : runOnline e = ⟨some "ERROR", none, 1⟩ := by
      unfold runOnline
      rw [hpf]
    rw [this]
    exact herrcase _ rfl rfl
  rcases so with _ | so
  · have : runOnline e = ⟨some "ERROR", none, 1⟩ := by
      unfold runOnline
      rw [hpf]
    rw [this]
    exact herrcase _ rfl rfl
  rcases hr : resolveHoldings e with _ | ⟨rows, src⟩
  · have : runOnline e = ⟨some "ERROR", some "Error", 1⟩ := by
      unfold runOnline
      rw [hpf, hr]
    rw [this]
    exact herrcase _ rfl rfl
  by_cases hcr : e.cleanRaises
  · have : runOnline e = ⟨some "ERROR", some src, 1⟩ := by
      unfold runOnline
      rw [hpf, hr]
      dsimp only
      rw [if_pos hcr]
    rw [this]
    exact herrcase _ rfl rfl
  · have hrun : runOnline e =
        ⟨some (final_result_status (some so)
            (valuate e.prices (cleanTableOnline rows)).total
            (valuate e.prices (cleanTableOnline rows)).missing),
          some src,
          if final_result_status (some so)
              (valuate e.prices (cleanTableOnline rows)).total
              (valuate e.prices (cleanTableOnline rows)).missing = "ERROR"
            then 1 else 0⟩ := by
      unfold runOnline
      rw [hpf, hr]
      dsimp only
      rw [if_neg hcr]
    rcases final_result_status_cases (some so)
        (valuate e.prices (cleanTableOnline rows)).total
        (valuate e.prices (cleanTableOnline rows)).missing with herr | ⟨s, hfmt⟩
    · rw [hrun, herr]
      exact herrcase _ rfl (by simp)
    · have hne : final_result_status (some so)
          (valuate e.prices (cleanTableOnline rows)).total
          (valuate e.prices (cleanTableOnline rows)).missing ≠ "ERROR" := by
        rw [hfmt]
        exact formatFixed4_ne_error _
      rw [hrun]
      constructor
      · simp only [if_neg hne]
        constructor
        · intro h
          exact absurd h (by norm_num)
        · intro h
          exact absurd (Option.some_inj.mp h) hne
      · simp only [if_neg hne]
        constructor
        · intro _
          exact ⟨(valuate e.prices (cleanTableOnline rows)).total / s, by rw [hfmt]⟩
        · intro _
          trivial

theorem c4_witness :
    ((runOnline ⟨none, none, fun _ => none, none, false,
        ⟨fun _ => none, fun _ => none, fun _ => none, fun _ => false, none,
          none⟩⟩).exitCode = 1
      ↔ (runOnline ⟨none, none, fun _ => none, none, false,
          ⟨fun _ => none, fun _ => none, fun _ => none, fun _ => false, none,
            none⟩⟩).resultFile = some "ERROR")
    ∧ ((runOnline ⟨none, none, fun _ => none, none, false,
        ⟨fun _ => none, fun _ => none, fun _ => none, fun _ => false, none,
          none⟩⟩).exitCode = 0
      ↔ ∃ q : ℚ, (runOnline ⟨none, none, fun _ => none, none, false,
          ⟨fun _ => none, fun _ => none, fun _ => none, fun _ => false, none,
            none⟩⟩).resultFile = some (formatFixed4 q)) :=
  c4_exit_sentinel_contract
    ⟨none, none, fun _ => none, none, false,
      ⟨fun _ => none, fun _ => none, fun _ => none, fun _ => false, none, none⟩⟩

/-- C5: resolver fallback ordering — when the URL branch of the holdings
resolver fails (fetch error, too-short download, or parse failure), the
resolver reads the local CSV file; when that file is also absent or
unreadable the resolver yields nothing (no partial table reaches the
downstream stages), the `"ERROR"` sentinel is persisted to the result
file and the process exits with code 1. -/
theorem c5_resolver_fallback (e : OnlineEnv) (hurl : urlHoldings e = none) :
    (∀ rows, e.localFile = some (some rows) →
      resolveHoldings e = some (rows, "Local File"))
    ∧ ((e.localFile = none ∨ e.localFile = some none) →
        resolveHoldings e = none
        ∧ (runOnline e).resultFile = some "ERROR"
        ∧ (runOnline e).exitCode = 1) := by
  constructor
  · intro rows hl
    unfold resolveHoldings
    rw [hurl, hl]
  · intro hlf
    have hnone : resolveHoldings e = none := by
      unfold resolveHoldings
      rw [hurl]
      rcases hlf with h | h <;> rw [h]
    refine ⟨hnone, ?_⟩
    rcases hpf : e.pageFetch with _ | so
    · have : runOnline e = ⟨some "ERROR", none, 1⟩ := by
        unfold runOnline
        rw [hpf]
      rw [this]
      exact ⟨rfl, rfl⟩
    rcases so with _ | so
    · have : runOnline e = ⟨some "ERROR", none, 1⟩ := by
        unfold runOnline
        rw [hpf]
      rw [this]
      exact ⟨rfl, rfl⟩
    · have : runOnline e = ⟨some "ERROR", some "Error", 1⟩ := by
        unfold runOnline
        rw [hpf, hnone]
      rw [this]
      exact ⟨rfl, rfl⟩

theorem c5_witness :
    resolveHoldings ⟨some (some 1000), none, fun _ => none, none, false,
        ⟨fun _ => none, fun _ => none, fun _ => none, fun _ => false, none,
          none⟩⟩ = none
    ∧ (runOnline ⟨some (some 1000), none, fun _ => none, none, false,
        ⟨fun _ => none, fun _ => none, fun _ => none, fun _ => false, none,
          none⟩⟩).resultFile = some "ERROR"
    ∧ (runOnline ⟨some (some 1000), none, fun _ => none, none, false,
        ⟨fun _ => none, fun _ => none, fun _ => none, fun _ => false, none,
          none⟩⟩).exitCode = 1 :=
  (c5_resolver_fallback
      ⟨some (some 1000), none, fun _ => none, none, false,
        ⟨fun _ => none, fun _ => none, fun _ => none, fun _ => false, none,
          none⟩⟩ rfl).2 (Or.inl rfl)
